import Mathlib

/-!
Verification of the progressive tax bracket engine of the `equinc` repository
(`src/brackets.rs`), shallowly embedded over exact rationals.  `BigUR` and
`UR64` from the source are both exact nonnegative rationals; they are embedded
as `ℚ`.  Panics (`assert!`, `expect`, `panic!`, `unreachable!`) are embedded as
`Option` failure.
-/

/-- Embedding of Rust `std::ops::Bound`. -/
inductive RBound where
  | unbounded : RBound
  | included : ℚ → RBound
  | excluded : ℚ → RBound
deriving DecidableEq, Repr

/-- The `opt_to_bound` closure of `multibound_to_bounds_iter`. -/
def optToBound (conv : ℚ → RBound) : Option ℚ → RBound
  | some v => conv v
  | none => RBound.unbounded

/-- `multibound_to_opts_iter`: pairs each bracket with its optional lower and
upper separator, from an ordered separator list. -/
def multibound_to_opts (l : List ℚ) : List (Option ℚ × Option ℚ) :=
  (none :: l.map some).zip (l.map some ++ [none])

/-- `multibound_to_bounds_iter`: turns the separator list into the list of
`(start_bound, end_bound)` pairs of the brackets.  The closure in the source
destructures the pair as `(top_opt, bot_opt)` even though the first component
is the lower separator, so the start bound is built with `top_map` and the end
bound with `bot_map`, exactly as in the source. -/
def multibound_to_bounds (l : List ℚ) (inclusive_bounds : Bool) : List (RBound × RBound) :=
  let maps : (ℚ → RBound) × (ℚ → RBound) :=
    if inclusive_bounds then (RBound.included, RBound.excluded)
    else (RBound.excluded, RBound.included)
  (multibound_to_opts l).map (fun p => (optToBound maps.2 p.1, optToBound maps.1 p.2))

/-- `RangeBounds::contains` for a `(start_bound, end_bound)` pair. -/
def boundContains (p : RBound × RBound) (x : ℚ) : Bool :=
  (match p.1 with
   | RBound.unbounded => true
   | RBound.included n => decide (n ≤ x)
   | RBound.excluded n => decide (n < x)) &&
  (match p.2 with
   | RBound.unbounded => true
   | RBound.included n => decide (x ≤ n)
   | RBound.excluded n => decide (x < n))

/-- Embedding of `MaritalStatus`. -/
inductive MaritalStatus where
  | Single : MaritalStatus
  | Joint : MaritalStatus
  | Separate : MaritalStatus
  | HeadOfHousehold : MaritalStatus
deriving DecidableEq, Repr

/-- Embedding of the private `Side` enum used by the merge. -/
inductive Side where
  | LHS : Side
  | RHS : Side
  | Both : Side
deriving DecidableEq, Repr

/-- Embedding of the `TaxBrackets` struct. -/
structure TaxBrackets where
  separators : List ℚ
  flats : List ℚ
  rates : List ℚ
deriving DecidableEq, Repr

/-- The value pushed onto `flats` at index `bracket` by the loop in
`TaxBrackets::new`: zero for the first bracket, and otherwise the previous
flat plus the preceding bracket's width times the preceding bracket's rate. -/
def flatVal (separators rates : List ℚ) : Nat → ℚ
  | 0 => 0
  | bracket + 1 =>
    flatVal separators rates bracket +
      (if bracket = 0 then separators.getD 0 0
       else separators.getD bracket 0 - separators.getD (bracket - 1) 0) *
        rates.getD bracket 0

/-- `TaxBrackets::new`.  The `assert!` on the lengths is embedded as `Option`
failure; the `flats` vector is the one accumulated by the source's loop. -/
def TaxBrackets.new (separators rates : List ℚ) : Option TaxBrackets :=
  if separators.length + 1 = rates.length then
    some { separators := separators
           flats := (List.range rates.length).map (flatVal separators rates)
           rates := rates }
  else none

/-- `TaxBrackets::taxation_info`: flats zipped with rates. -/
def TaxBrackets.taxation_info (tb : TaxBrackets) : List (ℚ × ℚ) :=
  tb.flats.zip tb.rates

/-- The `for` loop body of `calc_taxes`: returns at the first bracket whose
bound contains `gross`; the fallthrough (`unreachable!`) is `none`. -/
def taxesLoop (gross : ℚ) : List ((RBound × RBound) × (ℚ × ℚ)) → Option ℚ
  | [] => none
  | (bound, info) :: rest =>
    if boundContains bound gross then
      some (info.1 +
        (match bound.1 with
         | RBound.unbounded => gross
         | RBound.included n => gross - n
         | RBound.excluded n => gross - n) * info.2)
    else taxesLoop gross rest

/-- `TaxBrackets::calc_taxes`. -/
def TaxBrackets.calc_taxes (tb : TaxBrackets) (gross : ℚ) : Option ℚ :=
  taxesLoop gross ((multibound_to_bounds tb.separators true).zip tb.taxation_info)

/-- `TaxBrackets::calc_net`: the panic when taxes exceed gross is `none`. -/
def TaxBrackets.calc_net (tb : TaxBrackets) (gross : ℚ) : Option ℚ :=
  match tb.calc_taxes gross with
  | none => none
  | some taxed => if gross < taxed then none else some (gross - taxed)

/-- `TaxBrackets::separators_post_tax`: each separator minus the flat
deduction of the bracket above it. -/
def TaxBrackets.separators_post_tax (tb : TaxBrackets) : List ℚ :=
  (tb.separators.zip (tb.flats.drop 1)).map (fun p => p.1 - p.2)

/-- The `for` loop body of `calc_gross`; `(over_amount, prev_bucket)` is
`(net, 0)` for an unbounded start and `(net - n, n)` for a separator-bounded
start, and the result is `flat + prev_bucket + over_amount / (1 - rate)`. -/
def grossLoop (net : ℚ) : List ((RBound × RBound) × (ℚ × ℚ)) → Option ℚ
  | [] => none
  | (bound, info) :: rest =>
    if boundContains bound net then
      some (info.1 +
        (match bound.1 with
         | RBound.unbounded => (0 : ℚ)
         | RBound.included n => n
         | RBound.excluded n => n) +
        (match bound.1 with
         | RBound.unbounded => net
         | RBound.included n => net - n
         | RBound.excluded n => net - n) / (1 - info.2))
    else grossLoop net rest

/-- `TaxBrackets::calc_gross`; the `assert!` inside `separators_post_tax` is
embedded as the leading length check. -/
def TaxBrackets.calc_gross (tb : TaxBrackets) (net : ℚ) : Option ℚ :=
  if tb.separators.length + 1 = tb.flats.length then
    grossLoop net ((multibound_to_bounds tb.separators_post_tax true).zip tb.taxation_info)
  else none

/-- The two-pointer separator merge of `TaxBrackets::merge`: the `while let`
loop over both peekable iterators followed by the two `extend` calls. -/
def mergeLists : List ℚ → List ℚ → List (Side × ℚ)
  | [], ys => ys.map (fun b => (Side.RHS, b))
  | x :: xs, [] => (x :: xs).map (fun b => (Side.LHS, b))
  | x :: xs, y :: ys =>
    if x = y then (Side.Both, x) :: mergeLists xs ys
    else if x < y then (Side.LHS, x) :: mergeLists xs (y :: ys)
    else (Side.RHS, y) :: mergeLists (x :: xs) ys
termination_by xs ys => xs.length + ys.length

/-- The rate-merging loop of `TaxBrackets::merge` after the initial base rate
has been pushed: walks the merge order, advancing the current rate of the
side(s) owning each boundary; a failing `expect` is `none`. -/
def mergedRatesGo : List Side → ℚ → ℚ → List ℚ → List ℚ → Option (List ℚ)
  | [], _, _, _, _ => some []
  | Side.LHS :: rest, _, curr_rhs, ras, rbs =>
    match ras with
    | [] => none
    | ra :: ras' => (mergedRatesGo rest ra curr_rhs ras' rbs).map (fun l => (ra + curr_rhs) :: l)
  | Side.RHS :: rest, curr_lhs, _, ras, rbs =>
    match rbs with
    | [] => none
    | rb :: rbs' => (mergedRatesGo rest curr_lhs rb ras rbs').map (fun l => (curr_lhs + rb) :: l)
  | Side.Both :: rest, _, _, ras, rbs =>
    match ras, rbs with
    | ra :: ras', rb :: rbs' =>
      (mergedRatesGo rest ra rb ras' rbs').map (fun l => (ra + rb) :: l)
    | _, _ => none

/-- `TaxBrackets::merge`: merge the separator lists with side tags, rebuild
the rate list from the tagged order, and rebuild the schedule via `new`. -/
def TaxBrackets.merge (lhs rhs : TaxBrackets) : Option TaxBrackets :=
  let order := mergeLists lhs.separators rhs.separators
  match lhs.rates, rhs.rates with
  | ra0 :: ras, rb0 :: rbs =>
    match mergedRatesGo (order.map Prod.fst) ra0 rb0 ras rbs with
    | some rest => TaxBrackets.new (order.map Prod.snd) ((ra0 + rb0) :: rest)
    | none => none
  | _, _ => none

/-- Embedding of `TaxSystem`: the `HashMap<MaritalStatus, TaxBrackets>` is a
function to `Option TaxBrackets`. -/
def TaxSystem : Type := MaritalStatus → Option TaxBrackets

/-- `TaxSystem::flat`: a single-bracket schedule at the given rate, mapped
from all four marital statuses. -/
def TaxSystem.flat (rate : ℚ) : Option TaxSystem :=
  (TaxBrackets.new [] [rate]).map (fun tax_brackets status =>
    match status with
    | MaritalStatus.Single => some tax_brackets
    | MaritalStatus.Separate => some tax_brackets
    | MaritalStatus.Joint => some tax_brackets
    | MaritalStatus.HeadOfHousehold => some tax_brackets)

/-- `TaxSystem::calc_taxes`: zero when the status is absent. -/
def TaxSystem.calc_taxes (sys : TaxSystem) (gross : ℚ) (status : MaritalStatus) : Option ℚ :=
  match sys status with
  | none => some 0
  | some b => b.calc_taxes gross

/-- `TaxSystem::calc_net`: identity when the status is absent. -/
def TaxSystem.calc_net (sys : TaxSystem) (gross : ℚ) (status : MaritalStatus) : Option ℚ :=
  match sys status with
  | none => some gross
  | some b => b.calc_net gross

/-- `TaxSystem::calc_gross`: identity when the status is absent. -/
def TaxSystem.calc_gross (sys : TaxSystem) (net : ℚ) (status : MaritalStatus) : Option ℚ :=
  match sys status with
  | none => some net
  | some b => b.calc_gross net

/-! ### Proof-side helper definitions -/

/-- A valid schedule input: strictly increasing nonnegative separators, the
length invariant, and all rates in `[0, 1)`. -/
def ValidInput (separators rates : List ℚ) : Prop :=
  separators.Chain' (· < ·) ∧ (∀ s ∈ separators, 0 ≤ s) ∧
    separators.length + 1 = rates.length ∧ ∀ r ∈ rates, 0 ≤ r ∧ r < 1

/-- Index of the bracket containing `x`: the number of separators below `x`. -/
def bracketIdx (l : List ℚ) (x : ℚ) : Nat :=
  l.countP (fun s => decide (s < x))

/-- The lower separator of bracket `i` (zero for the lowest bracket). -/
def lowSep (l : List ℚ) (i : Nat) : ℚ :=
  if i = 0 then 0 else l.getD (i - 1) 0

/-- The tail of the bounds list produced by `multibound_to_bounds`, after the
unbounded-below first bracket: each bracket is start-exclusive in the previous
separator and end-inclusive in its own. -/
def boundsGo (prev : ℚ) : List ℚ → List (RBound × RBound)
  | [] => [(RBound.excluded prev, RBound.unbounded)]
  | s :: rest => (RBound.excluded prev, RBound.included s) :: boundsGo s rest

/-- Mathematical progressive tax above a floor `low`: each bracket taxes the
part of the income clamped to the bracket at the bracket's rate.  Used to
relate schedules with different separator lists. -/
def taxFrom (low : ℚ) : List ℚ → List ℚ → ℚ → ℚ
  | [], rates, g => rates.headD 0 * (max g low - low)
  | s :: seps, rates, g =>
    rates.headD 0 * (min (max g low) s - low) + taxFrom s seps rates.tail g

/-- Suffix view of the flat-deduction accumulation: starting from the
accumulated deduction `acc` and the previous separator `prev`, produce the
flats of the remaining brackets. -/
def flatsGo (acc prev : ℚ) : List ℚ → List ℚ → List ℚ
  | [], _rates => [acc]
  | s :: seps, rates =>
    acc :: flatsGo (acc + (s - prev) * rates.headD 0) s seps rates.tail

/-- The inverse formula as the specification of C4 words it: the flat
deduction of the containing post-tax bracket, plus the UNTRANSFORMED (pre-tax)
separator bounding the bracket below (zero when unbounded), plus the amount
over the post-tax bracket start divided by one minus the bracket rate.
Written from the claim, to be compared with `calc_gross`. -/
def claimGrossFormula (tb : TaxBrackets) (net : ℚ) : ℚ :=
  tb.flats.getD (bracketIdx tb.separators_post_tax net) 0 +
    lowSep tb.separators (bracketIdx tb.separators_post_tax net) +
    (net - lowSep tb.separators_post_tax (bracketIdx tb.separators_post_tax net)) /
      (1 - tb.rates.getD (bracketIdx tb.separators_post_tax net) 0)

example : TaxBrackets.new [10000] [1/10, 2/10] =
    some { separators := [10000], flats := [0, 1000], rates := [1/10, 2/10] } := by
  norm_num [TaxBrackets.new, flatVal, List.range_succ]

example : (TaxBrackets.new [10000] [1/10, 2/10]).map (fun tb => tb.calc_taxes 15000) =
    some (some 2000) := by
  norm_num [TaxBrackets.new, flatVal, List.range_succ, TaxBrackets.calc_taxes,
    TaxBrackets.taxation_info, multibound_to_bounds, multibound_to_opts, optToBound,
    taxesLoop, boundContains]

example : (TaxBrackets.new [10000] [1/10, 2/10]).map (fun tb => tb.calc_net 15000) =
    some (some 13000) := by
  norm_num [TaxBrackets.new, flatVal, List.range_succ, TaxBrackets.calc_net,
    TaxBrackets.calc_taxes, TaxBrackets.taxation_info, multibound_to_bounds,
    multibound_to_opts, optToBound, taxesLoop, boundContains]

example : (TaxBrackets.new [10000] [1/10, 2/10]).map (fun tb => tb.calc_gross 13000) =
    some (some 15000) := by
  norm_num [TaxBrackets.new, flatVal, List.range_succ, TaxBrackets.calc_gross,
    TaxBrackets.separators_post_tax, TaxBrackets.taxation_info, multibound_to_bounds,
    multibound_to_opts, optToBound, grossLoop, boundContains]

/-! ### Basic structural lemmas -/

theorem new_some {separators rates : List ℚ} {tb : TaxBrackets}
    (h : TaxBrackets.new separators rates = some tb) :
    tb.separators = separators ∧
      tb.flats = (List.range rates.length).map (flatVal separators rates) ∧
      tb.rates = rates ∧ separators.length + 1 = rates.length := by
  unfold TaxBrackets.new at h
  split at h
  · cases h
    simp_all
  · cases h

theorem new_isSome_iff (separators rates : List ℚ) :
    (TaxBrackets.new separators rates).isSome ↔ separators.length + 1 = rates.length := by
  unfold TaxBrackets.new
  split <;> simp_all

theorem flats_getD {seps rates : List ℚ} {i : Nat} (hi : i < rates.length) :
    ((List.range rates.length).map (flatVal seps rates)).getD i 0 = flatVal seps rates i := by
  rw [List.getD_eq_getElem?_getD, List.getElem?_map]
  rw [List.getElem?_eq_getElem (by simpa using hi)]
  simp

theorem chain'_cons_forall {s : ℚ} {l : List ℚ} (h : (s :: l).Chain' (· < ·)) :
    ∀ x ∈ l, s < x := by
  have hp := List.chain'_iff_pairwise.mp h
  exact (List.pairwise_cons.mp hp).1

theorem bracketIdx_cons_le {s g : ℚ} (l : List ℚ) (hg : g ≤ s)
    (hchain : (s :: l).Chain' (· < ·)) : bracketIdx (s :: l) g = 0 := by
  unfold bracketIdx
  rw [List.countP_cons_of_neg]
  · rw [List.countP_eq_zero]
    intro a ha
    have := chain'_cons_forall hchain a ha
    simp
    linarith
  · simp
    linarith

theorem bracketIdx_cons_lt {s g : ℚ} (l : List ℚ) (hg : s < g) :
    bracketIdx (s :: l) g = bracketIdx l g + 1 := by
  unfold bracketIdx
  rw [List.countP_cons_of_pos]
  simpa

theorem bracketIdx_le_length (l : List ℚ) (g : ℚ) : bracketIdx l g ≤ l.length :=
  List.countP_le_length _

/-- Boundary facts delivered by the bracket index: the separator below the
bracket is strictly below the value, the separator above is at or above it. -/
theorem bracketIdx_bounds {l : List ℚ} (hchain : l.Chain' (· < ·)) (g : ℚ) :
    (0 < bracketIdx l g → l.getD (bracketIdx l g - 1) 0 < g) ∧
      (bracketIdx l g < l.length → g ≤ l.getD (bracketIdx l g) 0) := by
  induction l with
  | nil => simp [bracketIdx]
  | cons s rest ih =>
    by_cases hg : s < g
    · rw [bracketIdx_cons_lt rest hg]
      rcases ih hchain.tail with ⟨ih1, ih2⟩
      constructor
      · intro _
        rcases Nat.eq_zero_or_pos (bracketIdx rest g) with h0 | hpos
        · simpa [h0] using hg
        · have := ih1 hpos
          rcases Nat.exists_eq_add_of_lt hpos with ⟨k, hk⟩
          simp only [Nat.add_sub_cancel]
          rcases Nat.eq_zero_or_pos (bracketIdx rest g) with h0' | _
          · simpa [h0'] using hg
          · have h1 : bracketIdx rest g - 1 + 1 = bracketIdx rest g := Nat.succ_pred_eq_of_pos ‹_›
            rw [← h1, List.getD_cons_succ]
            exact ih1 ‹_›
      · intro hlt
        have : bracketIdx rest g < rest.length := by simpa using hlt
        rw [List.getD_cons_succ]
        exact ih2 this
    · push_neg at hg
      rw [bracketIdx_cons_le rest hg hchain]
      exact ⟨by omega, fun _ => by simpa using hg⟩

/-! ### Characterization of the bracket bounds list -/

theorem boundsGo_eq (rest : List ℚ) : ∀ prev : ℚ,
    ((some prev :: rest.map some).zip (rest.map some ++ [none])).map
      (fun p => (optToBound RBound.excluded p.1, optToBound RBound.included p.2)) =
      boundsGo prev rest := by
  induction rest with
  | nil => intro prev; simp [boundsGo, optToBound]
  | cons s rest ih =>
    intro prev
    simp only [List.map_cons, List.cons_append, List.zip_cons_cons, List.map]
    rw [show optToBound RBound.excluded (some prev) = RBound.excluded prev from rfl,
      show optToBound RBound.included (some s) = RBound.included s from rfl, boundsGo]
    exact congrArg _ (ih s)

theorem multibound_to_bounds_nil :
    multibound_to_bounds [] true = [(RBound.unbounded, RBound.unbounded)] := rfl

theorem multibound_to_bounds_cons (s : ℚ) (rest : List ℚ) :
    multibound_to_bounds (s :: rest) true =
      (RBound.unbounded, RBound.included s) :: boundsGo s rest := by
  rw [← boundsGo_eq rest s]
  rfl

/-! ### Closed form of the `calc_taxes` search loop -/

theorem taxesLoop_go (g : ℚ) (seps : List ℚ) : ∀ (prev : ℚ) (flats rates : List ℚ),
    seps.Chain' (· < ·) → prev < g →
    flats.length = seps.length + 1 → rates.length = seps.length + 1 →
    taxesLoop g ((boundsGo prev seps).zip (flats.zip rates)) =
      some (flats.getD (bracketIdx seps g) 0 +
        (g - (if bracketIdx seps g = 0 then prev else seps.getD (bracketIdx seps g - 1) 0)) *
          rates.getD (bracketIdx seps g) 0) := by
  induction seps with
  | nil =>
    intro prev flats rates _ hprev hf hr
    obtain ⟨f, rfl⟩ := List.length_eq_one.mp hf
    obtain ⟨r, rfl⟩ := List.length_eq_one.mp hr
    simp [boundsGo, taxesLoop, boundContains, bracketIdx, hprev]
  | cons s rest ih =>
    intro prev flats rates hchain hprev hf hr
    obtain ⟨f, fl, rfl⟩ : ∃ f fl, flats = f :: fl := by
      cases flats with
      | nil => simp at hf
      | cons a l => exact ⟨a, l, rfl⟩
    obtain ⟨r, rl, rfl⟩ : ∃ r rl, rates = r :: rl := by
      cases rates with
      | nil => simp at hr
      | cons a l => exact ⟨a, l, rfl⟩
    rw [boundsGo]
    by_cases hgs : g ≤ s
    · have hidx : bracketIdx (s :: rest) g = 0 := bracketIdx_cons_le rest hgs hchain
      rw [hidx]
      simp [taxesLoop, boundContains, hprev, hgs]
    · push_neg at hgs
      have hidx : bracketIdx (s :: rest) g = bracketIdx rest g + 1 :=
        bracketIdx_cons_lt rest hgs
      rw [hidx]
      have hskip : ¬ (boundContains (RBound.excluded prev, RBound.included s) g = true) := by
        simp [boundContains]
        intro _
        linarith
      simp only [List.zip_cons_cons, taxesLoop, if_neg hskip]
      have hz : List.zipWith Prod.mk (boundsGo s rest) (List.zipWith Prod.mk fl rl) =
          (boundsGo s rest).zip (fl.zip rl) := rfl
      rw [hz, ih s fl rl hchain.tail hgs (by simpa using hf) (by simpa using hr)]
      rcases Nat.eq_zero_or_pos (bracketIdx rest g) with h0 | hpos
      · simp [h0]
      · have h1 : bracketIdx rest g - 1 + 1 = bracketIdx rest g := Nat.succ_pred_eq_of_pos hpos
        have h2 : bracketIdx rest g ≠ 0 := Nat.pos_iff_ne_zero.mp hpos
        simp only [List.getD_cons_succ, Nat.add_sub_cancel, if_neg (Nat.succ_ne_zero _), if_neg h2]
        rw [← h1, List.getD_cons_succ]
        simp [Nat.add_sub_cancel]

theorem calc_taxes_closed {seps rates : List ℚ} {tb : TaxBrackets}
    (hnew : TaxBrackets.new seps rates = some tb)
    (hchain : seps.Chain' (· < ·)) (g : ℚ) :
    tb.calc_taxes g = some (tb.flats.getD (bracketIdx seps g) 0 +
      (g - lowSep seps (bracketIdx seps g)) * tb.rates.getD (bracketIdx seps g) 0) := by
  obtain ⟨hsep, hfl, hrt, hlen⟩ := new_some hnew
  have hflen : tb.flats.length = seps.length + 1 := by rw [hfl]; simp [← hlen]
  have hrlen : tb.rates.length = seps.length + 1 := by rw [hrt]; omega
  unfold TaxBrackets.calc_taxes TaxBrackets.taxation_info
  rw [hsep]
  cases seps with
  | nil =>
    obtain ⟨f, hfeq⟩ := List.length_eq_one.mp (by simpa using hflen)
    obtain ⟨r, hreq⟩ := List.length_eq_one.mp (by simpa using hrlen)
    rw [multibound_to_bounds_nil, hfeq, hreq]
    simp [taxesLoop, boundContains, bracketIdx, lowSep]
  | cons s rest =>
    obtain ⟨f0, fl, hfeq⟩ : ∃ f0 fl, tb.flats = f0 :: fl := by
      cases h : tb.flats with
      | nil => rw [h] at hflen; simp at hflen
      | cons a l => exact ⟨a, l, rfl⟩
    obtain ⟨r0, rl, hreq⟩ : ∃ r0 rl, tb.rates = r0 :: rl := by
      cases h : tb.rates with
      | nil => rw [h] at hrlen; simp at hrlen
      | cons a l => exact ⟨a, l, rfl⟩
    rw [multibound_to_bounds_cons, hfeq, hreq]
    by_cases hgs : g ≤ s
    · have hidx : bracketIdx (s :: rest) g = 0 := bracketIdx_cons_le rest hgs hchain
      have hc : boundContains (RBound.unbounded, RBound.included s) g = true := by
        simp [boundContains]; exact hgs
      rw [hidx]
      simp [taxesLoop, if_pos hc, lowSep]
    · push_neg at hgs
      have hidx : bracketIdx (s :: rest) g = bracketIdx rest g + 1 :=
        bracketIdx_cons_lt rest hgs
      have hskip : ¬ (boundContains (RBound.unbounded, RBound.included s) g = true) := by
        simp [boundContains]; linarith
      simp only [List.zip_cons_cons, taxesLoop, if_neg hskip]
      have hz : List.zipWith Prod.mk (boundsGo s rest) (List.zipWith Prod.mk fl rl) =
          (boundsGo s rest).zip (fl.zip rl) := rfl
      rw [hz, taxesLoop_go g rest s fl rl hchain.tail hgs
        (by have := hflen; rw [hfeq] at this; simpa using this)
        (by have := hrlen; rw [hreq] at this; simpa using this)]
      rw [hidx]
      rcases Nat.eq_zero_or_pos (bracketIdx rest g) with h0 | hpos
      · simp [h0, lowSep]
      · have h2 : bracketIdx rest g ≠ 0 := Nat.pos_iff_ne_zero.mp hpos
        have h1 : bracketIdx rest g - 1 + 1 = bracketIdx rest g := Nat.succ_pred_eq_of_pos hpos
        simp only [List.getD_cons_succ, lowSep, Nat.add_sub_cancel, if_neg h2,
          if_neg (Nat.succ_ne_zero _)]
        rw [← h1, List.getD_cons_succ]
        simp [Nat.add_sub_cancel]

/-! ### Closed form of the `calc_gross` search loop -/

theorem grossLoop_go (g : ℚ) (seps : List ℚ) : ∀ (prev : ℚ) (flats rates : List ℚ),
    seps.Chain' (· < ·) → prev < g →
    flats.length = seps.length + 1 → rates.length = seps.length + 1 →
    grossLoop g ((boundsGo prev seps).zip (flats.zip rates)) =
      some (flats.getD (bracketIdx seps g) 0 +
        (if bracketIdx seps g = 0 then prev else seps.getD (bracketIdx seps g - 1) 0) +
        (g - (if bracketIdx seps g = 0 then prev else seps.getD (bracketIdx seps g - 1) 0)) /
          (1 - rates.getD (bracketIdx seps g) 0)) := by
  induction seps with
  | nil =>
    intro prev flats rates _ hprev hf hr
    obtain ⟨f, rfl⟩ := List.length_eq_one.mp hf
    obtain ⟨r, rfl⟩ := List.length_eq_one.mp hr
    simp [boundsGo, grossLoop, boundContains, bracketIdx, hprev]
  | cons s rest ih =>
    intro prev flats rates hchain hprev hf hr
    obtain ⟨f, fl, rfl⟩ : ∃ f fl, flats = f :: fl := by
      cases flats with
      | nil => simp at hf
      | cons a l => exact ⟨a, l, rfl⟩
    obtain ⟨r, rl, rfl⟩ : ∃ r rl, rates = r :: rl := by
      cases rates with
      | nil => simp at hr
      | cons a l => exact ⟨a, l, rfl⟩
    rw [boundsGo]
    by_cases hgs : g ≤ s
    · have hidx : bracketIdx (s :: rest) g = 0 := bracketIdx_cons_le rest hgs hchain
      rw [hidx]
      simp [grossLoop, boundContains, hprev, hgs]
    · push_neg at hgs
      have hidx : bracketIdx (s :: rest) g = bracketIdx rest g + 1 :=
        bracketIdx_cons_lt rest hgs
      rw [hidx]
      have hskip : ¬ (boundContains (RBound.excluded prev, RBound.included s) g = true) := by
        simp [boundContains]
        intro _
        linarith
      simp only [List.zip_cons_cons, grossLoop, if_neg hskip]
      have hz : List.zipWith Prod.mk (boundsGo s rest) (List.zipWith Prod.mk fl rl) =
          (boundsGo s rest).zip (fl.zip rl) := rfl
      rw [hz, ih s fl rl hchain.tail hgs (by simpa using hf) (by simpa using hr)]
      rcases Nat.eq_zero_or_pos (bracketIdx rest g) with h0 | hpos
      · simp [h0]
      · have h1 : bracketIdx rest g - 1 + 1 = bracketIdx rest g := Nat.succ_pred_eq_of_pos hpos
        have h2 : bracketIdx rest g ≠ 0 := Nat.pos_iff_ne_zero.mp hpos
        simp only [List.getD_cons_succ, Nat.add_sub_cancel, if_neg (Nat.succ_ne_zero _), if_neg h2]
        rw [← h1, List.getD_cons_succ]
        simp [Nat.add_sub_cancel]

theorem calc_gross_closed {seps rates : List ℚ} {tb : TaxBrackets}
    (hnew : TaxBrackets.new seps rates = some tb)
    (hpost : tb.separators_post_tax.Chain' (· < ·)) (g : ℚ) :
    tb.calc_gross g = some (tb.flats.getD (bracketIdx tb.separators_post_tax g) 0 +
      lowSep tb.separators_post_tax (bracketIdx tb.separators_post_tax g) +
      (g - lowSep tb.separators_post_tax (bracketIdx tb.separators_post_tax g)) /
        (1 - tb.rates.getD (bracketIdx tb.separators_post_tax g) 0)) := by
  obtain ⟨hsep, hfl, hrt, hlen⟩ := new_some hnew
  have hflen : tb.flats.length = tb.separators.length + 1 := by rw [hfl, hsep]; simp [← hlen]
  have hrlen : tb.rates.length = tb.separators.length + 1 := by rw [hrt, hsep]; omega
  have hplen : tb.separators_post_tax.length = tb.separators.length := by
    unfold TaxBrackets.separators_post_tax
    rw [List.length_map, List.length_zip, List.length_drop, hflen]
    omega
  unfold TaxBrackets.calc_gross TaxBrackets.taxation_info
  rw [if_pos hflen.symm]
  have hflen' : tb.flats.length = tb.separators_post_tax.length + 1 := by rw [hplen]; exact hflen
  have hrlen' : tb.rates.length = tb.separators_post_tax.length + 1 := by rw [hplen]; exact hrlen
  generalize hP : tb.separators_post_tax = P at hpost hflen' hrlen' ⊢
  cases P with
  | nil =>
    obtain ⟨f, hfeq⟩ := List.length_eq_one.mp (by simpa using hflen')
    obtain ⟨r, hreq⟩ := List.length_eq_one.mp (by simpa using hrlen')
    rw [multibound_to_bounds_nil, hfeq, hreq]
    simp [grossLoop, boundContains, bracketIdx, lowSep]
  | cons s rest =>
    obtain ⟨f0, fl, hfeq⟩ : ∃ f0 fl, tb.flats = f0 :: fl := by
      cases h : tb.flats with
      | nil => rw [h] at hflen'; simp at hflen'
      | cons a l => exact ⟨a, l, rfl⟩
    obtain ⟨r0, rl, hreq⟩ : ∃ r0 rl, tb.rates = r0 :: rl := by
      cases h : tb.rates with
      | nil => rw [h] at hrlen'; simp at hrlen'
      | cons a l => exact ⟨a, l, rfl⟩
    rw [multibound_to_bounds_cons, hfeq, hreq]
    by_cases hgs : g ≤ s
    · have hidx : bracketIdx (s :: rest) g = 0 := bracketIdx_cons_le rest hgs hpost
      have hc : boundContains (RBound.unbounded, RBound.included s) g = true := by
        simp [boundContains]; exact hgs
      rw [hidx]
      simp [grossLoop, if_pos hc, lowSep]
    · push_neg at hgs
      have hidx : bracketIdx (s :: rest) g = bracketIdx rest g + 1 :=
        bracketIdx_cons_lt rest hgs
      have hskip : ¬ (boundContains (RBound.unbounded, RBound.included s) g = true) := by
        simp [boundContains]; linarith
      simp only [List.zip_cons_cons, grossLoop, if_neg hskip]
      have hz : List.zipWith Prod.mk (boundsGo s rest) (List.zipWith Prod.mk fl rl) =
          (boundsGo s rest).zip (fl.zip rl) := rfl
      rw [hz, grossLoop_go g rest s fl rl hpost.tail hgs
        (by have := hflen'; rw [hfeq] at this; simpa using this)
        (by have := hrlen'; rw [hreq] at this; simpa using this)]
      rw [hidx]
      rcases Nat.eq_zero_or_pos (bracketIdx rest g) with h0 | hpos2
      · simp [h0, lowSep]
      · have h2 : bracketIdx rest g ≠ 0 := Nat.pos_iff_ne_zero.mp hpos2
        have h1 : bracketIdx rest g - 1 + 1 = bracketIdx rest g := Nat.succ_pred_eq_of_pos hpos2
        simp only [List.getD_cons_succ, lowSep, Nat.add_sub_cancel, if_neg h2,
          if_neg (Nat.succ_ne_zero _)]
        rw [← h1, List.getD_cons_succ]
        simp [Nat.add_sub_cancel]

/-! ### Arithmetic facts about flats and post-tax separators -/

theorem getD_eq_elem {l : List ℚ} {i : Nat} (h : i < l.length) : l.getD i 0 = l[i] := by
  rw [List.getD_eq_getElem?_getD, List.getElem?_eq_getElem h]
  rfl

theorem flatVal_succ (seps rates : List ℚ) (i : Nat) :
    flatVal seps rates (i + 1) =
      flatVal seps rates i + (seps.getD i 0 - lowSep seps i) * rates.getD i 0 := by
  cases i with
  | zero => simp [flatVal, lowSep]
  | succ k => simp [flatVal, lowSep]

theorem sorted_getD_lt {l : List ℚ} (h : l.Chain' (· < ·)) {i j : Nat} (hij : i < j)
    (hj : j < l.length) : l.getD i 0 < l.getD j 0 := by
  rw [getD_eq_elem (lt_trans hij hj), getD_eq_elem hj]
  exact List.pairwise_iff_getElem.mp (List.chain'_iff_pairwise.mp h) i j _ hj hij

theorem sorted_getD_le {l : List ℚ} (h : l.Chain' (· < ·)) {i j : Nat} (hij : i ≤ j)
    (hj : j < l.length) : l.getD i 0 ≤ l.getD j 0 := by
  rcases Nat.lt_or_ge i j with hlt | hge
  · exact le_of_lt (sorted_getD_lt h hlt hj)
  · have : i = j := le_antisymm hij hge
    rw [this]

/-- The bracket index is determined by its boundary inequalities. -/
theorem bracketIdx_eq (x : ℚ) : ∀ (l : List ℚ) (i : Nat), i ≤ l.length →
    (∀ j, j < i → l.getD j 0 < x) → (∀ j, i ≤ j → j < l.length → x ≤ l.getD j 0) →
    bracketIdx l x = i := by
  intro l
  induction l with
  | nil =>
    intro i hi _ _
    have : i = 0 := by simpa using hi
    subst this
    rfl
  | cons a rest ih =>
    intro i hi hlt hge
    cases i with
    | zero =>
      unfold bracketIdx
      rw [List.countP_cons_of_neg]
      · rw [List.countP_eq_zero]
        intro b hb
        obtain ⟨j, hjlen, hjb⟩ := List.mem_iff_getElem.mp hb
        have := hge (j + 1) (Nat.zero_le _) (by simpa using hjlen)
        rw [List.getD_cons_succ, getD_eq_elem hjlen, hjb] at this
        simp
        linarith
      · have := hge 0 le_rfl (by simp)
        simp at this ⊢
        linarith
    | succ k =>
      have ha : a < x := by simpa using hlt 0 (Nat.succ_pos _)
      rw [bracketIdx_cons_lt rest ha]
      have : bracketIdx rest x = k := by
        apply ih k (by simpa using hi)
        · intro j hj
          have := hlt (j + 1) (by omega)
          simpa using this
        · intro j hj hjlen
          have := hge (j + 1) (by omega) (by simpa using hjlen)
          simpa using this
      omega

theorem rates_getD_bounds {rates : List ℚ} (hv : ∀ r ∈ rates, 0 ≤ r ∧ r < 1) {i : Nat}
    (hi : i < rates.length) : 0 ≤ rates.getD i 0 ∧ rates.getD i 0 < 1 := by
  rw [getD_eq_elem hi]
  exact hv _ (List.getElem_mem hi)

theorem lowSep_le_getD {seps rates : List ℚ} (hv : ValidInput seps rates) {i : Nat}
    (hi : i < seps.length) : lowSep seps i ≤ seps.getD i 0 := by
  obtain ⟨hchain, hnonneg, _, _⟩ := hv
  cases i with
  | zero =>
    simp only [lowSep, if_pos rfl]
    rw [getD_eq_elem hi]
    exact hnonneg _ (List.getElem_mem hi)
  | succ k =>
    simp only [lowSep, if_neg (Nat.succ_ne_zero _), Nat.add_sub_cancel]
    exact le_of_lt (sorted_getD_lt hchain (Nat.lt_succ_self k) hi)

/-- The accumulated flat deduction never exceeds the bracket's lower bound:
taxation below a separator never exceeds the separator. -/
theorem flatVal_le_lowSep {seps rates : List ℚ} (hv : ValidInput seps rates) :
    ∀ i, i ≤ seps.length → flatVal seps rates i ≤ lowSep seps i := by
  intro i
  induction i with
  | zero => simp [flatVal, lowSep]
  | succ k ih =>
    intro hk
    have hklen : k < seps.length := by omega
    have hrk : k < rates.length := by
      obtain ⟨_, _, hlen, _⟩ := hv
      omega
    have hw : 0 ≤ seps.getD k 0 - lowSep seps k :=
      sub_nonneg.mpr (lowSep_le_getD hv hklen)
    have hr := rates_getD_bounds hv.2.2.2 hrk
    have hfk := ih (le_of_lt hklen)
    rw [flatVal_succ]
    have hstep : (seps.getD k 0 - lowSep seps k) * rates.getD k 0 ≤
        seps.getD k 0 - lowSep seps k := by
      nlinarith [hr.1, hr.2, hw]
    have : lowSep seps (k + 1) = seps.getD k 0 := by
      simp [lowSep]
    rw [this]
    linarith

/-- Element formula for the post-tax separators of a schedule built by `new`. -/
theorem post_getD {seps rates : List ℚ} {tb : TaxBrackets}
    (hnew : TaxBrackets.new seps rates = some tb) {j : Nat} (hj : j < seps.length) :
    tb.separators_post_tax.getD j 0 = seps.getD j 0 - flatVal seps rates (j + 1) := by
  obtain ⟨hsep, hfl, hrt, hlen⟩ := new_some hnew
  have hflen : tb.flats.length = seps.length + 1 := by rw [hfl]; simp [← hlen]
  have hdlen : (tb.flats.drop 1).length = seps.length := by
    rw [List.length_drop, hflen]
    omega
  have hslen : tb.separators.length = seps.length := by rw [hsep]
  have hzlen : (tb.separators.zip (tb.flats.drop 1)).length = seps.length := by
    rw [List.length_zip, hslen, hdlen, min_self]
  have hjz : j < (tb.separators.zip (tb.flats.drop 1)).length := by omega
  have hjs : j < tb.separators.length := by omega
  have hjd : j < (tb.flats.drop 1).length := by omega
  have hjf : 1 + j < tb.flats.length := by omega
  unfold TaxBrackets.separators_post_tax
  rw [getD_eq_elem (by rw [List.length_map]; exact hjz), List.getElem_map]
  have hzip : (tb.separators.zip (tb.flats.drop 1))[j] =
      (tb.separators[j], (tb.flats.drop 1)[j]) := by
    apply List.getElem_zip
  rw [hzip]
  have h1 : tb.separators[j] = seps.getD j 0 := by
    rw [← getD_eq_elem hjs, hsep]
  have h2 : (tb.flats.drop 1)[j] = flatVal seps rates (j + 1) := by
    rw [List.getElem_drop, ← getD_eq_elem hjf, hfl, flats_getD (by omega), Nat.add_comm]
  rw [h1, h2]

/-- Length of the post-tax separator list. -/
theorem post_length {seps rates : List ℚ} {tb : TaxBrackets}
    (hnew : TaxBrackets.new seps rates = some tb) :
    tb.separators_post_tax.length = seps.length := by
  obtain ⟨hsep, hfl, hrt, hlen⟩ := new_some hnew
  have hflen : tb.flats.length = seps.length + 1 := by rw [hfl]; simp [← hlen]
  unfold TaxBrackets.separators_post_tax
  rw [List.length_map, List.length_zip, List.length_drop, hflen, hsep]
  omega

/-- The post-tax separators of a valid schedule are strictly increasing. -/
theorem post_chain {seps rates : List ℚ} {tb : TaxBrackets} (hv : ValidInput seps rates)
    (hnew : TaxBrackets.new seps rates = some tb) :
    tb.separators_post_tax.Chain' (· < ·) := by
  obtain ⟨hchain, hnonneg, hlen, hrates⟩ := hv
  rw [List.chain'_iff_get]
  intro i hilen
  have hplen := post_length hnew
  have hi1 : i + 1 < seps.length := by omega
  have hi : i < seps.length := by omega
  have hig : i < tb.separators_post_tax.length := by omega
  have hi1g : i + 1 < tb.separators_post_tax.length := by omega
  simp only [List.get_eq_getElem]
  rw [← getD_eq_elem hig, ← getD_eq_elem hi1g, post_getD hnew hi, post_getD hnew hi1]
  have hfs : flatVal seps rates (i + 1 + 1) =
      flatVal seps rates (i + 1) + (seps.getD (i + 1) 0 - lowSep seps (i + 1)) *
        rates.getD (i + 1) 0 := flatVal_succ seps rates (i + 1)
  have hlows : lowSep seps (i + 1) = seps.getD i 0 := by simp [lowSep]
  have hss : seps.getD i 0 < seps.getD (i + 1) 0 :=
    sorted_getD_lt hchain (Nat.lt_succ_self i) hi1
  have hri : rates.getD (i + 1) 0 < 1 := (rates_getD_bounds hrates (by omega)).2
  rw [hfs, hlows]
  nlinarith

/-- The lower bound of a bracket in post-tax space is the pre-tax lower bound
minus the flat deduction of that bracket. -/
theorem lowSep_post {seps rates : List ℚ} {tb : TaxBrackets}
    (hnew : TaxBrackets.new seps rates = some tb) {i : Nat} (hi : i ≤ seps.length) (hip : 0 < i) :
    lowSep tb.separators_post_tax i = lowSep seps i - flatVal seps rates i := by
  cases i with
  | zero => omega
  | succ k =>
    have hk : k < seps.length := by omega
    simp only [lowSep, if_neg (Nat.succ_ne_zero _), Nat.add_sub_cancel]
    exact post_getD hnew hk

theorem lowSep_post' {seps rates : List ℚ} {tb : TaxBrackets}
    (hnew : TaxBrackets.new seps rates = some tb) {i : Nat} (hi : i ≤ seps.length) :
    lowSep tb.separators_post_tax i = lowSep seps i - flatVal seps rates i := by
  cases Nat.eq_zero_or_pos i with
  | inl h0 => simp [h0, lowSep, flatVal]
  | inr hpos => exact lowSep_post hnew hi hpos

/-- C1: for every valid tax bracket schedule (strictly increasing nonnegative
separators, all rates in `[0, 1)`) and every nonnegative gross income `g`,
`calc_net` succeeds and `calc_gross (calc_net g) = g` with exact rational
equality. -/
theorem C1_roundtrip (seps rates : List ℚ) (tb : TaxBrackets)
    (hv : ValidInput seps rates) (hnew : TaxBrackets.new seps rates = some tb)
    (g : ℚ) (hg : 0 ≤ g) :
    ∃ n, tb.calc_net g = some n ∧ tb.calc_gross n = some g := by
  obtain ⟨hchain, hnonneg, hlen, hrates⟩ := hv
  obtain ⟨hsep, hfl, hrt, _⟩ := new_some hnew
  set i := bracketIdx seps g with hidef
  have hile : i ≤ seps.length := bracketIdx_le_length seps g
  have hirate : i < rates.length := by omega
  obtain ⟨hb1, hb2⟩ := bracketIdx_bounds hchain g
  have hlow : lowSep seps i ≤ g := by
    cases Nat.eq_zero_or_pos i with
    | inl h0 => simpa [h0, lowSep] using hg
    | inr hpos =>
      have := hb1 hpos
      simp only [lowSep, if_neg (Nat.pos_iff_ne_zero.mp hpos)]
      linarith
  have hr := rates_getD_bounds hrates hirate
  have hFlats : tb.flats.getD i 0 = flatVal seps rates i := by
    rw [hfl, flats_getD hirate]
  have hRates : tb.rates.getD i 0 = rates.getD i 0 := by rw [hrt]
  have htax : tb.calc_taxes g =
      some (flatVal seps rates i + (g - lowSep seps i) * rates.getD i 0) := by
    rw [calc_taxes_closed hnew hchain g, ← hidef, hFlats, hRates]
  have hFle : flatVal seps rates i ≤ lowSep seps i :=
    flatVal_le_lowSep ⟨hchain, hnonneg, hlen, hrates⟩ i hile
  have htaxle : flatVal seps rates i + (g - lowSep seps i) * rates.getD i 0 ≤ g := by
    nlinarith [hr.1, hr.2]
  have hnet : tb.calc_net g =
      some (g - (flatVal seps rates i + (g - lowSep seps i) * rates.getD i 0)) := by
    simp only [TaxBrackets.calc_net, htax]
    rw [if_neg (not_lt.mpr htaxle)]
  refine ⟨_, hnet, ?_⟩
  have hpchain := post_chain ⟨hchain, hnonneg, hlen, hrates⟩ hnew
  have hplen := post_length hnew
  set n := g - (flatVal seps rates i + (g - lowSep seps i) * rates.getD i 0) with hn
  have hpidx : bracketIdx tb.separators_post_tax n = i := by
    apply bracketIdx_eq n _ i (by omega)
    · intro j hj
      have hipos : 0 < i := by omega
      have hi1 : i - 1 < seps.length := by omega
      have hji : j ≤ i - 1 := by omega
      have hmono : tb.separators_post_tax.getD j 0 ≤ tb.separators_post_tax.getD (i - 1) 0 :=
        sorted_getD_le hpchain hji (by omega)
      have hpi1 : tb.separators_post_tax.getD (i - 1) 0 =
          seps.getD (i - 1) 0 - flatVal seps rates i := by
        have h := post_getD hnew hi1
        have he : i - 1 + 1 = i := by omega
        rwa [he] at h
      have hLval : lowSep seps i = seps.getD (i - 1) 0 := by
        simp [lowSep, Nat.pos_iff_ne_zero.mp hipos]
      have hLlt : lowSep seps i < g := by
        rw [hLval]
        exact hb1 hipos
      have hkey : seps.getD (i - 1) 0 - flatVal seps rates i < n := by
        rw [hn, ← hLval]
        nlinarith [hr.2]
      calc tb.separators_post_tax.getD j 0
          ≤ tb.separators_post_tax.getD (i - 1) 0 := hmono
        _ = seps.getD (i - 1) 0 - flatVal seps rates i := hpi1
        _ < n := hkey
    · intro j hj hjlen
      have hii : i < seps.length := by omega
      have hmono : tb.separators_post_tax.getD i 0 ≤ tb.separators_post_tax.getD j 0 :=
        sorted_getD_le hpchain hj (by omega)
      have hgi : g ≤ seps.getD i 0 := hb2 hii
      have hpi : tb.separators_post_tax.getD i 0 =
          seps.getD i 0 - flatVal seps rates (i + 1) := post_getD hnew hii
      have hfs : flatVal seps rates (i + 1) = flatVal seps rates i +
          (seps.getD i 0 - lowSep seps i) * rates.getD i 0 := flatVal_succ seps rates i
      have hkey : n ≤ tb.separators_post_tax.getD i 0 := by
        rw [hpi, hfs, hn]
        nlinarith [hr.2]
      linarith [hmono, hkey]
  have hclosed := calc_gross_closed hnew hpchain n
  rw [hpidx] at hclosed
  rw [hclosed, hFlats, hRates]
  have hlsp : lowSep tb.separators_post_tax i =
      lowSep seps i - flatVal seps rates i := lowSep_post' hnew hile
  rw [hlsp]
  have hrne : 1 - rates.getD i 0 ≠ 0 := by
    have := hr.2
    intro hc
    rw [sub_eq_zero] at hc
    linarith
  have hkey2 : n - (lowSep seps i - flatVal seps rates i) =
      (g - lowSep seps i) * (1 - rates.getD i 0) := by
    rw [hn]
    ring
  congr 1
  rw [hkey2, mul_div_assoc, div_self hrne]
  ring

theorem newA : TaxBrackets.new [10000] [1/10, 2/10] =
    some { separators := [10000], flats := [0, 1000], rates := [1/10, 2/10] } := by
  norm_num [TaxBrackets.new, flatVal, List.range_succ]

theorem validA : ValidInput [10000] [1/10, 2/10] := by
  refine ⟨by simp, ?_, by simp, ?_⟩
  · intro x hx
    simp at hx
    subst hx
    norm_num
  · intro x hx
    rcases List.mem_cons.mp hx with rfl | hx2
    · norm_num
    · simp at hx2
      subst hx2
      norm_num

theorem C1_roundtrip_witness :
    ∃ tb n, TaxBrackets.new [10000] [1/10, 2/10] = some tb ∧
      tb.calc_net 15000 = some n ∧ tb.calc_gross n = some 15000 := by
  obtain ⟨n, h1, h2⟩ := C1_roundtrip [10000] [1/10, 2/10] _ validA newA 15000 (by norm_num)
  exact ⟨_, n, newA, h1, h2⟩

/-- C6: for every valid schedule and nonnegative input, both bracket searches
find a containing bracket, so the `unreachable!` fallthrough never runs. -/
theorem C6_no_fallthrough (seps rates : List ℚ) (tb : TaxBrackets)
    (hv : ValidInput seps rates) (hnew : TaxBrackets.new seps rates = some tb)
    (x : ℚ) (hx : 0 ≤ x) :
    (tb.calc_taxes x).isSome ∧ (tb.calc_gross x).isSome := by
  constructor
  · rw [calc_taxes_closed hnew hv.1 x]
    rfl
  · rw [calc_gross_closed hnew (post_chain hv hnew) x]
    rfl

theorem C6_no_fallthrough_witness :
    ∃ tb, TaxBrackets.new [10000] [1/10, 2/10] = some tb ∧
      (tb.calc_taxes 123).isSome ∧ (tb.calc_gross 123).isSome :=
  ⟨_, newA, C6_no_fallthrough [10000] [1/10, 2/10] _ validA newA 123 (by norm_num)⟩

/-- C7: a gross value equal to separator `i` is taxed in the lower bracket
`i`: `calc_taxes` returns `flats[i] + (s_i - bracket_start_i) * rates[i]`,
which equals `flats[i+1]`. -/
theorem C7_separator_lower_bracket (seps rates : List ℚ) (tb : TaxBrackets)
    (hv : ValidInput seps rates) (hnew : TaxBrackets.new seps rates = some tb)
    (i : Nat) (hi : i < seps.length) :
    tb.calc_taxes (seps.getD i 0) = some (tb.flats.getD i 0 +
      (seps.getD i 0 - lowSep seps i) * tb.rates.getD i 0) ∧
    tb.flats.getD i 0 + (seps.getD i 0 - lowSep seps i) * tb.rates.getD i 0 =
      tb.flats.getD (i + 1) 0 := by
  obtain ⟨hchain, hnonneg, hlen, hrates⟩ := hv
  obtain ⟨hsep, hfl, hrt, _⟩ := new_some hnew
  have hidx : bracketIdx seps (seps.getD i 0) = i := by
    apply bracketIdx_eq _ _ i (le_of_lt hi)
    · intro j hj
      exact sorted_getD_lt hchain hj hi
    · intro j hj hjlen
      exact sorted_getD_le hchain hj hjlen
  constructor
  · rw [calc_taxes_closed hnew hchain (seps.getD i 0), hidx]
  · rw [hfl, flats_getD (by omega), flats_getD (by omega), hrt, flatVal_succ]

theorem C7_separator_lower_bracket_witness :
    ∃ tb, TaxBrackets.new [10000] [1/10, 2/10] = some tb ∧
      tb.calc_taxes ([(10000 : ℚ)].getD 0 0) = some (tb.flats.getD 0 0 +
        ([(10000 : ℚ)].getD 0 0 - lowSep [10000] 0) * tb.rates.getD 0 0) ∧
      tb.flats.getD 0 0 + ([(10000 : ℚ)].getD 0 0 - lowSep [10000] 0) * tb.rates.getD 0 0 =
        tb.flats.getD 1 0 := by
  obtain ⟨h1, h2⟩ :=
    C7_separator_lower_bracket [10000] [1/10, 2/10] _ validA newA 0 (by simp)
  exact ⟨_, newA, h1, h2⟩

/-- C3: the derived flat deductions satisfy `flats[0] = 0` and
`flats[i] = flats[i-1] + width(i-1) * rates[i-1]` with the width of bracket
`i-1` being `separators[i-1] - separators[i-2]` (or `separators[0]` when
`i = 1`); concretely, separators `[10000]` with rates `[0.10, 0.20]` give
flat deductions `[0, 1000]`. -/
theorem C3_flats_recurrence (seps rates : List ℚ) (tb : TaxBrackets)
    (hnew : TaxBrackets.new seps rates = some tb) :
    tb.flats.getD 0 0 = 0 ∧
    (∀ i, 1 ≤ i → i < rates.length →
      tb.flats.getD i 0 = tb.flats.getD (i - 1) 0 +
        (if i = 1 then seps.getD 0 0
         else seps.getD (i - 1) 0 - seps.getD (i - 2) 0) * rates.getD (i - 1) 0) ∧
    (TaxBrackets.new [10000] [1/10, 2/10]).map TaxBrackets.flats = some [0, 1000] := by
  obtain ⟨hsep, hfl, hrt, hlen⟩ := new_some hnew
  refine ⟨?_, ?_, ?_⟩
  · rw [hfl, flats_getD (by omega)]
    rfl
  · intro i h1 h2
    cases i with
    | zero => omega
    | succ k =>
      rw [hfl, flats_getD h2, flats_getD (by omega)]
      have hk1 : k + 1 - 1 = k := by omega
      rw [hk1]
      cases k with
      | zero => simp [flatVal]
      | succ m =>
        have hne : Nat.succ m + 1 ≠ 1 := by omega
        have he2 : Nat.succ m + 1 - 2 = m := by omega
        rw [if_neg hne, he2]
        simp [flatVal]
  · rw [newA]
    rfl

theorem C3_flats_recurrence_witness :
    ∃ tb, TaxBrackets.new [10000] [1/10, 2/10] = some tb ∧ tb.flats.getD 0 0 = 0 :=
  ⟨_, newA, (C3_flats_recurrence [10000] [1/10, 2/10] _ newA).1⟩

/-- C8 counterexample: construction with an empty separator list and the
single rate 2 (outside `[0, 1)`) succeeds, so rates outside `[0, 1)` are NOT
rejected at build time, contrary to the claim. -/
theorem C8_counterexample :
    (TaxBrackets.new [] [2]).isSome = true ∧ ¬ ((0 : ℚ) ≤ 2 ∧ (2 : ℚ) < 1) := by
  constructor
  · rw [new_isSome_iff]
    rfl
  · norm_num

/-- C8 amended: for well-ordered separator inputs, schedule construction
fails exactly when `rates.len() != separators.len() + 1`; the rate values are
not validated at construction time. -/
theorem C8_amended (seps rates : List ℚ) (hsorted : seps.Chain' (· ≤ ·)) :
    (TaxBrackets.new seps rates).isSome ↔ seps.length + 1 = rates.length :=
  new_isSome_iff seps rates

theorem C8_amended_witness :
    ([(5 : ℚ)].Chain' (· ≤ ·)) ∧
      ((TaxBrackets.new [5] [1/10, 2/10]).isSome ↔ [(5 : ℚ)].length + 1 = 2) :=
  ⟨by simp, C8_amended [5] [1/10, 2/10] (by simp)⟩

/-- C9: a marital status absent from a tax system's mapping yields zero tax
and identity net/gross conversions, with no error. -/
theorem C9_absent_status_identity (sys : TaxSystem) (status : MaritalStatus)
    (h : sys status = none) (x : ℚ) :
    TaxSystem.calc_taxes sys x status = some 0 ∧
      TaxSystem.calc_net sys x status = some x ∧
      TaxSystem.calc_gross sys x status = some x := by
  unfold TaxSystem.calc_taxes TaxSystem.calc_net TaxSystem.calc_gross
  rw [h]
  exact ⟨rfl, rfl, rfl⟩

theorem C9_absent_status_identity_witness :
    TaxSystem.calc_taxes (fun _ => none) 5 MaritalStatus.Single = some 0 ∧
      TaxSystem.calc_net (fun _ => none) 5 MaritalStatus.Single = some 5 ∧
      TaxSystem.calc_gross (fun _ => none) 5 MaritalStatus.Single = some 5 :=
  C9_absent_status_identity (fun _ => none) MaritalStatus.Single rfl 5

/-- C4 counterexample: for the schedule with separators `[10000]` and rates
`[0.10, 0.20]`, `calc_gross 13000 = 15000`, while the claim's formula with the
UNTRANSFORMED separator as `prev_bucket` yields 16000. -/
theorem C4_counterexample :
    ∃ tb, TaxBrackets.new [10000] [1/10, 2/10] = some tb ∧
      tb.calc_gross 13000 = some 15000 ∧ claimGrossFormula tb 13000 = 16000 := by
  refine ⟨_, newA, ?_, ?_⟩
  · norm_num [TaxBrackets.calc_gross, TaxBrackets.separators_post_tax,
      TaxBrackets.taxation_info, multibound_to_bounds, multibound_to_opts, optToBound,
      grossLoop, boundContains]
  · norm_num [claimGrossFormula, TaxBrackets.separators_post_tax, bracketIdx, lowSep,
      List.countP, List.countP.go]

/-- C4 amended: when a net amount falls in bracket `i` of the post-tax
separators, `calc_gross` returns
`flats[i] + prev_bucket + over_amount / (1 - rates[i])` where BOTH
`prev_bucket` and the bracket start are the TRANSFORMED (post-tax) separator
below the bracket (zero when unbounded); the post-tax separator equals the
pre-tax separator minus `flat_deductions[i]`. -/
theorem C4_amended (seps rates : List ℚ) (tb : TaxBrackets)
    (hv : ValidInput seps rates) (hnew : TaxBrackets.new seps rates = some tb) (net : ℚ) :
    tb.calc_gross net = some (tb.flats.getD (bracketIdx tb.separators_post_tax net) 0 +
      lowSep tb.separators_post_tax (bracketIdx tb.separators_post_tax net) +
      (net - lowSep tb.separators_post_tax (bracketIdx tb.separators_post_tax net)) /
        (1 - tb.rates.getD (bracketIdx tb.separators_post_tax net) 0)) ∧
    lowSep tb.separators_post_tax (bracketIdx tb.separators_post_tax net) =
      lowSep seps (bracketIdx tb.separators_post_tax net) -
        tb.flats.getD (bracketIdx tb.separators_post_tax net) 0 := by
  have hpchain := post_chain hv hnew
  constructor
  · exact calc_gross_closed hnew hpchain net
  · obtain ⟨hsep, hfl, hrt, hlen⟩ := new_some hnew
    have hplen := post_length hnew
    have hile : bracketIdx tb.separators_post_tax net ≤ seps.length := by
      have := bracketIdx_le_length tb.separators_post_tax net
      omega
    rw [lowSep_post' hnew hile, hfl, flats_getD (by omega)]

theorem C4_amended_witness :
    ∃ tb, TaxBrackets.new [10000] [1/10, 2/10] = some tb ∧
      (tb.calc_gross 13000 = some (tb.flats.getD (bracketIdx tb.separators_post_tax 13000) 0 +
        lowSep tb.separators_post_tax (bracketIdx tb.separators_post_tax 13000) +
        (13000 - lowSep tb.separators_post_tax (bracketIdx tb.separators_post_tax 13000)) /
          (1 - tb.rates.getD (bracketIdx tb.separators_post_tax 13000) 0)) ∧
      lowSep tb.separators_post_tax (bracketIdx tb.separators_post_tax 13000) =
        lowSep [10000] (bracketIdx tb.separators_post_tax 13000) -
          tb.flats.getD (bracketIdx tb.separators_post_tax 13000) 0) :=
  ⟨_, newA, C4_amended [10000] [1/10, 2/10] _ validA newA 13000⟩

/-- C10 counterexample: `TaxSystem::flat` accepts the rate 2; at gross 1 the
taxes (2) exceed the gross, so `calc_net` fails (panic in the source) instead
of returning `1 * (1 - 2)` as the claim's formula would require. -/
theorem C10_counterexample :
    (TaxSystem.flat 2).map (fun sys => TaxSystem.calc_net sys 1 MaritalStatus.Single) =
      some none ∧ (none : Option ℚ) ≠ some (1 * (1 - 2)) := by
  constructor
  · norm_num [TaxSystem.flat, TaxBrackets.new, flatVal, List.range_succ, TaxSystem.calc_net,
      TaxBrackets.calc_net, TaxBrackets.calc_taxes, TaxBrackets.taxation_info,
      multibound_to_bounds, multibound_to_opts, optToBound, taxesLoop, boundContains]
  · simp

/-- C10 amended: `TaxSystem::flat rate` maps all four marital statuses to the
same single-bracket schedule with no separators and the given rate; for rates
in `[0, 1]`, every status and every nonnegative gross then satisfy
`calc_taxes = g * rate` and `calc_net = g * (1 - rate)` (for rates above 1,
`calc_net` fails because taxes exceed gross). -/
theorem C10_amended (r : ℚ) (hr0 : 0 ≤ r) (hr1 : r ≤ 1) :
    ∃ sys tb, TaxSystem.flat r = some sys ∧ (∀ status, sys status = some tb) ∧
      tb.separators = [] ∧ tb.rates = [r] ∧
      ∀ status g, 0 ≤ g →
        TaxSystem.calc_taxes sys g status = some (g * r) ∧
        TaxSystem.calc_net sys g status = some (g * (1 - r)) := by
  refine ⟨(fun status =>
      match status with
      | MaritalStatus.Single => some ⟨[], [0], [r]⟩
      | MaritalStatus.Separate => some ⟨[], [0], [r]⟩
      | MaritalStatus.Joint => some ⟨[], [0], [r]⟩
      | MaritalStatus.HeadOfHousehold => some ⟨[], [0], [r]⟩),
    ⟨[], [0], [r]⟩, ?_, ?_, rfl, rfl, ?_⟩
  · rfl
  · intro status
    cases status <;> rfl
  · intro status g hg
    have htax : TaxBrackets.calc_taxes ⟨[], [0], [r]⟩ g = some (g * r) := by
      unfold TaxBrackets.calc_taxes TaxBrackets.taxation_info
      rw [show (⟨[], [0], [r]⟩ : TaxBrackets).separators = [] from rfl,
        multibound_to_bounds_nil]
      simp [taxesLoop, boundContains]
    have htaxle : g * r ≤ g := by nlinarith
    have hnet : TaxBrackets.calc_net ⟨[], [0], [r]⟩ g = some (g * (1 - r)) := by
      unfold TaxBrackets.calc_net
      rw [htax]
      show (if g < g * r then none else some (g - g * r)) = some (g * (1 - r))
      rw [if_neg (not_lt.mpr htaxle)]
      congr 1
      ring
    constructor
    · show (match (match status with
        | MaritalStatus.Single => some (⟨[], [0], [r]⟩ : TaxBrackets)
        | MaritalStatus.Separate => some ⟨[], [0], [r]⟩
        | MaritalStatus.Joint => some ⟨[], [0], [r]⟩
        | MaritalStatus.HeadOfHousehold => some ⟨[], [0], [r]⟩) with
        | none => some 0
        | some b => b.calc_taxes g) = some (g * r)
      cases status <;> exact htax
    · show (match (match status with
        | MaritalStatus.Single => some (⟨[], [0], [r]⟩ : TaxBrackets)
        | MaritalStatus.Separate => some ⟨[], [0], [r]⟩
        | MaritalStatus.Joint => some ⟨[], [0], [r]⟩
        | MaritalStatus.HeadOfHousehold => some ⟨[], [0], [r]⟩) with
        | none => some g
        | some b => b.calc_net g) = some (g * (1 - r))
      cases status <;> exact hnet

theorem C10_amended_witness :
    (0 : ℚ) ≤ 1/4 ∧ (1/4 : ℚ) ≤ 1 ∧
      (∃ sys tb, TaxSystem.flat (1/4) = some sys ∧ (∀ status, sys status = some tb) ∧
        tb.separators = [] ∧ tb.rates = [1/4] ∧
        ∀ status g, 0 ≤ g →
          TaxSystem.calc_taxes sys g status = some (g * (1/4)) ∧
          TaxSystem.calc_net sys g status = some (g * (1 - 1/4))) :=
  ⟨by norm_num, by norm_num, C10_amended (1/4) (by norm_num) (by norm_num)⟩

/-! ### taxFrom: splitting and vanishing lemmas -/

theorem three_point_top (g low m : ℚ) (hlm : low ≤ m) :
    max g low - low = (min (max g low) m - low) + (max g m - m) := by
  rcases le_total g low with h1 | h1 <;> rcases le_total g m with h2 | h2 <;>
    simp [max_def, min_def] <;> split_ifs <;> linarith

theorem three_point (g low m s : ℚ) (hlm : low ≤ m) (hms : m ≤ s) :
    min (max g low) s - low = (min (max g low) m - low) + (min (max g m) s - m) := by
  rcases le_total g low with h1 | h1 <;> rcases le_total g m with h2 | h2 <;>
    rcases le_total g s with h3 | h3 <;>
    simp [max_def, min_def] <;> split_ifs <;> linarith

theorem taxFrom_of_le : ∀ (seps : List ℚ) (rates : List ℚ) (low g : ℚ), g ≤ low →
    (∀ s ∈ seps, low ≤ s) → seps.Chain' (· < ·) → taxFrom low seps rates g = 0 := by
  intro seps
  induction seps with
  | nil =>
    intro rates low g hg _ _
    simp [taxFrom, max_eq_right hg]
  | cons s rest ih =>
    intro rates low g hg hall hchain
    have hls : low ≤ s := hall s (by simp)
    have hgs : g ≤ s := le_trans hg hls
    rw [taxFrom, max_eq_right hg, min_eq_left hls,
      ih rates.tail s g hgs (fun x hx => le_of_lt (chain'_cons_forall hchain x hx)) hchain.tail]
    ring

theorem taxFrom_split (m : ℚ) : ∀ (seps rates : List ℚ) (low g : ℚ), low ≤ m →
    (∀ s ∈ seps, m ≤ s) →
    taxFrom low seps rates g =
      rates.headD 0 * (min (max g low) m - low) + taxFrom m seps rates g := by
  intro seps
  cases seps with
  | nil =>
    intro rates low g hlm _
    rw [taxFrom, taxFrom, three_point_top g low m hlm]
    ring
  | cons s rest =>
    intro rates low g hlm hall
    have hms : m ≤ s := hall s (by simp)
    rw [taxFrom, taxFrom, three_point g low m s hlm hms]
    ring

/-! ### The flats of `new` as a suffix accumulation -/

theorem headD_drop : ∀ (l : List ℚ) (j : Nat), (l.drop j).headD 0 = l.getD j 0 := by
  intro l
  induction l with
  | nil => intro j; simp
  | cons a rest ih =>
    intro j
    cases j with
    | zero => simp
    | succ k => simpa using ih k

theorem flatsGo_suffix : ∀ (suffix : List ℚ) (seps rates : List ℚ) (j : Nat),
    seps.drop j = suffix → j ≤ seps.length → seps.length + 1 = rates.length →
    (List.range' j (rates.length - j)).map (flatVal seps rates) =
      flatsGo (flatVal seps rates j) (lowSep seps j) suffix (rates.drop j) := by
  intro suffix
  induction suffix with
  | nil =>
    intro seps rates j hdrop hj hlen
    have hj' : seps.length ≤ j := List.drop_eq_nil_iff.mp hdrop
    have hjeq : j = seps.length := le_antisymm hj hj'
    have h1 : rates.length - j = 1 := by omega
    rw [h1, List.range'_one, List.map_cons, List.map_nil, flatsGo]
  | cons s suffix' ih =>
    intro seps rates j hdrop hj hlen
    have hjlt : j < seps.length := by
      by_contra hc
      push_neg at hc
      rw [List.drop_eq_nil_of_le hc] at hdrop
      cases hdrop
    have hsD : seps.getD j 0 = s := by
      rw [← headD_drop, hdrop]
      rfl
    have hdrop' : seps.drop (j + 1) = suffix' := by
      rw [← List.tail_drop, hdrop]
      rfl
    have hcount : rates.length - j = (rates.length - (j + 1)) + 1 := by omega
    rw [hcount, List.range'_succ, List.map_cons, flatsGo]
    have hracc : (rates.drop j).headD 0 = rates.getD j 0 := headD_drop rates j
    have hrtail : (rates.drop j).tail = rates.drop (j + 1) := List.tail_drop rates j
    rw [hracc, hrtail]
    have hacc : flatVal seps rates j + (s - lowSep seps j) * rates.getD j 0 =
        flatVal seps rates (j + 1) := by
      rw [flatVal_succ, hsD]
    have hprev : s = lowSep seps (j + 1) := by
      simp only [lowSep, if_neg (Nat.succ_ne_zero j), Nat.add_sub_cancel]
      exact hsD.symm
    rw [hacc]
    rw [show (flatsGo (flatVal seps rates (j + 1)) s suffix' (rates.drop (j + 1))) =
        (flatsGo (flatVal seps rates (j + 1)) (lowSep seps (j + 1)) suffix'
          (rates.drop (j + 1))) from by rw [← hprev]]
    exact congrArg _ (ih seps rates (j + 1) hdrop' (by omega) hlen)

theorem flats_eq_flatsGo (seps rates : List ℚ) (hlen : seps.length + 1 = rates.length) :
    (List.range rates.length).map (flatVal seps rates) = flatsGo 0 0 seps rates := by
  have h := flatsGo_suffix seps seps rates 0 rfl (Nat.zero_le _) hlen
  simpa [List.range_eq_range', flatVal, lowSep] using h

/-! ### The search loop computes `taxFrom` -/

theorem taxesLoop_taxFrom_go (g : ℚ) : ∀ (seps : List ℚ) (prev acc : ℚ) (rates : List ℚ),
    seps.Chain' (· < ·) → prev < g → rates.length = seps.length + 1 →
    taxesLoop g ((boundsGo prev seps).zip ((flatsGo acc prev seps rates).zip rates)) =
      some (acc + taxFrom prev seps rates g) := by
  intro seps
  induction seps with
  | nil =>
    intro prev acc rates _ hprev hlen
    obtain ⟨r, rfl⟩ := List.length_eq_one.mp hlen
    simp [boundsGo, flatsGo, taxesLoop, boundContains, hprev, taxFrom,
      max_eq_left (le_of_lt hprev)]
    ring
  | cons s rest ih =>
    intro prev acc rates hchain hprev hlen
    obtain ⟨r, rl, rfl⟩ : ∃ r rl, rates = r :: rl := by
      cases rates with
      | nil => simp at hlen
      | cons a l => exact ⟨a, l, rfl⟩
    rw [boundsGo, flatsGo]
    by_cases hgs : g ≤ s
    · have hc : boundContains (RBound.excluded prev, RBound.included s) g = true := by
        simp [boundContains]
        exact ⟨hprev, hgs⟩
      simp only [List.headD_cons, List.tail_cons, List.zip_cons_cons, taxesLoop, if_pos hc]
      have hzero : taxFrom s rest rl g = 0 :=
        taxFrom_of_le rest rl s g hgs
          (fun x hx => le_of_lt (chain'_cons_forall hchain x hx)) hchain.tail
      rw [taxFrom]
      simp only [List.headD_cons, List.tail_cons, hzero]
      rw [max_eq_left (le_of_lt hprev), min_eq_left hgs]
      ring_nf
    · push_neg at hgs
      have hskip : ¬ (boundContains (RBound.excluded prev, RBound.included s) g = true) := by
        simp [boundContains]
        intro _
        linarith
      simp only [List.headD_cons, List.tail_cons, List.zip_cons_cons, taxesLoop, if_neg hskip]
      have hz : List.zipWith Prod.mk (boundsGo s rest)
          (List.zipWith Prod.mk (flatsGo (acc + (s - prev) * r) s rest rl) rl) =
          (boundsGo s rest).zip ((flatsGo (acc + (s - prev) * r) s rest rl).zip rl) := rfl
      rw [hz, ih s (acc + (s - prev) * r) rl hchain.tail hgs (by simpa using hlen)]
      rw [taxFrom]
      simp only [List.headD_cons, List.tail_cons]
      rw [max_eq_left (le_of_lt hprev), min_eq_right (le_of_lt hgs)]
      ring_nf

theorem calc_taxes_taxFrom {seps rates : List ℚ} {tb : TaxBrackets}
    (hnew : TaxBrackets.new seps rates = some tb)
    (hchain : seps.Chain' (· < ·)) (g : ℚ) (hg : 0 ≤ g) :
    tb.calc_taxes g = some (taxFrom 0 seps rates g) := by
  obtain ⟨hsep, hfl, hrt, hlen⟩ := new_some hnew
  have hfgo : tb.flats = flatsGo 0 0 seps rates := by
    rw [hfl, flats_eq_flatsGo seps rates hlen]
  unfold TaxBrackets.calc_taxes TaxBrackets.taxation_info
  rw [hsep, hfgo, hrt]
  cases seps with
  | nil =>
    obtain ⟨r, rfl⟩ := List.length_eq_one.mp (by simpa using hlen.symm)
    rw [multibound_to_bounds_nil]
    simp [flatsGo, taxesLoop, boundContains, taxFrom, max_eq_left hg]
    ring
  | cons s rest =>
    obtain ⟨r, rl, rfl⟩ : ∃ r rl, rates = r :: rl := by
      cases rates with
      | nil => simp at hlen
      | cons a l => exact ⟨a, l, rfl⟩
    rw [multibound_to_bounds_cons, flatsGo]
    by_cases hgs : g ≤ s
    · have hc : boundContains (RBound.unbounded, RBound.included s) g = true := by
        simp [boundContains]
        exact hgs
      simp only [List.headD_cons, List.tail_cons, List.zip_cons_cons, taxesLoop, if_pos hc]
      have hzero : taxFrom s rest rl g = 0 :=
        taxFrom_of_le rest rl s g hgs
          (fun x hx => le_of_lt (chain'_cons_forall hchain x hx)) hchain.tail
      rw [taxFrom]
      simp only [List.headD_cons, List.tail_cons, hzero]
      rw [max_eq_left hg, min_eq_left hgs]
      ring_nf
    · push_neg at hgs
      have hskip : ¬ (boundContains (RBound.unbounded, RBound.included s) g = true) := by
        simp [boundContains]
        linarith
      simp only [List.headD_cons, List.tail_cons, List.zip_cons_cons, taxesLoop, if_neg hskip]
      have hz : List.zipWith Prod.mk (boundsGo s rest)
          (List.zipWith Prod.mk (flatsGo (0 + (s - 0) * r) s rest rl) rl) =
          (boundsGo s rest).zip ((flatsGo (0 + (s - 0) * r) s rest rl).zip rl) := rfl
      rw [hz, taxesLoop_taxFrom_go g rest s (0 + (s - 0) * r) rl hchain.tail hgs
        (by simpa using hlen.symm)]
      rw [taxFrom]
      simp only [List.headD_cons, List.tail_cons]
      rw [max_eq_left hg, min_eq_right (le_of_lt hgs)]
      ring_nf

/-! ### Structure of the merged separator list -/

theorem mergeLists_mem : ∀ (xs ys : List ℚ) (z : ℚ),
    z ∈ (mergeLists xs ys).map Prod.snd → z ∈ xs ∨ z ∈ ys := by
  intro xs
  induction xs with
  | nil =>
    intro ys z hz
    right
    simpa [mergeLists, List.map_map, Function.comp] using hz
  | cons x xs' ihx =>
    intro ys
    induction ys with
    | nil =>
      intro z hz
      left
      simpa [mergeLists, List.map_map, Function.comp] using hz
    | cons y ys' ihy =>
      intro z hz
      simp only [mergeLists] at hz
      by_cases hxy : x = y
      · rw [if_pos hxy] at hz
        simp only [List.map_cons, List.mem_cons] at hz
        rcases hz with rfl | hz
        · left
          simp
        · rcases ihx ys' z hz with h | h
          · left
            simp [h]
          · right
            simp [h]
      · rw [if_neg hxy] at hz
        by_cases hlt : x < y
        · rw [if_pos hlt] at hz
          simp only [List.map_cons, List.mem_cons] at hz
          rcases hz with rfl | hz
          · left
            simp
          · rcases ihx (y :: ys') z hz with h | h
            · left
              simp [h]
            · right
              exact h
        · rw [if_neg hlt] at hz
          simp only [List.map_cons, List.mem_cons] at hz
          rcases hz with rfl | hz
          · right
            simp
          · rcases ihy z hz with h | h
            · left
              exact h
            · right
              simp [h]

theorem mergeLists_pairwise : ∀ (xs ys : List ℚ), xs.Pairwise (· < ·) → ys.Pairwise (· < ·) →
    ((mergeLists xs ys).map Prod.snd).Pairwise (· < ·) := by
  intro xs
  induction xs with
  | nil =>
    intro ys z hz
    simpa [mergeLists, List.map_map, Function.comp] using hz
  | cons x xs' ihx =>
    intro ys
    induction ys with
    | nil =>
      intro hx _
      simpa [mergeLists, List.map_map, Function.comp] using hx
    | cons y ys' ihy =>
      intro hx hy
      obtain ⟨hxb, hx'⟩ := List.pairwise_cons.mp hx
      obtain ⟨hyb, hy'⟩ := List.pairwise_cons.mp hy
      simp only [mergeLists]
      by_cases hxy : x = y
      · rw [if_pos hxy]
        rw [List.map_cons]
        refine List.pairwise_cons.mpr ⟨?_, ihx ys' hx' hy'⟩
        intro z hz
        rcases mergeLists_mem xs' ys' z hz with h | h
        · exact hxb z h
        · rw [hxy]
          exact hyb z h
      · rw [if_neg hxy]
        by_cases hlt : x < y
        · rw [if_pos hlt]
          rw [List.map_cons]
          refine List.pairwise_cons.mpr ⟨?_, ihx (y :: ys') hx' hy⟩
          intro z hz
          rcases mergeLists_mem xs' (y :: ys') z hz with h | h
          · exact hxb z h
          · rcases List.mem_cons.mp h with rfl | h2
            · exact hlt
            · exact lt_trans hlt (hyb z h2)
        · rw [if_neg hlt]
          rw [List.map_cons]
          have hylt : y < x := by
            rcases lt_trichotomy x y with h | h | h
            · exact absurd h hlt
            · exact absurd h hxy
            · exact h
          refine List.pairwise_cons.mpr ⟨?_, ihy hx hy'⟩
          intro z hz
          rcases mergeLists_mem (x :: xs') ys' z hz with h | h
          · rcases List.mem_cons.mp h with rfl | h2
            · exact hylt
            · exact lt_trans hylt (hxb z h2)
          · exact hyb z h

theorem mergeLists_sorted (xs ys : List ℚ) (hx : xs.Chain' (· < ·)) (hy : ys.Chain' (· < ·)) :
    ((mergeLists xs ys).map Prod.snd).Chain' (· < ·) := by
  rw [List.chain'_iff_pairwise] at hx hy ⊢
  exact mergeLists_pairwise xs ys hx hy

/-- The tagged separator merge together with the rate-merging loop produce a
schedule whose progressive tax function is the sum of the two inputs'. -/
theorem merge_taxFrom (g : ℚ) : ∀ (xs ys ras rbs : List ℚ) (ra0 rb0 low : ℚ),
    xs.Chain' (· < ·) → ys.Chain' (· < ·) →
    (∀ s ∈ xs, low ≤ s) → (∀ s ∈ ys, low ≤ s) →
    xs.length = ras.length → ys.length = rbs.length →
    ∃ rest, mergedRatesGo ((mergeLists xs ys).map Prod.fst) ra0 rb0 ras rbs = some rest ∧
      rest.length = (mergeLists xs ys).length ∧
      taxFrom low ((mergeLists xs ys).map Prod.snd) ((ra0 + rb0) :: rest) g =
        taxFrom low xs (ra0 :: ras) g + taxFrom low ys (rb0 :: rbs) g := by
  intro xs
  induction xs with
  | nil =>
    intro ys
    induction ys with
    | nil =>
      intro ras rbs ra0 rb0 low _ _ _ _ hra hrb
      have hras : ras = [] := List.eq_nil_of_length_eq_zero hra.symm
      have hrbs : rbs = [] := List.eq_nil_of_length_eq_zero hrb.symm
      subst hras hrbs
      refine ⟨[], by simp [mergeLists, mergedRatesGo], by simp [mergeLists], ?_⟩
      simp only [mergeLists, List.map_nil, taxFrom, List.headD_cons]
      ring
    | cons y ys' ihy =>
      intro ras rbs ra0 rb0 low hx hy hxall hyall hra hrb
      have hras : ras = [] := List.eq_nil_of_length_eq_zero hra.symm
      obtain ⟨rb1, rbs', rfl⟩ : ∃ rb1 rbs', rbs = rb1 :: rbs' := by
        cases rbs with
        | nil => simp at hrb
        | cons a l => exact ⟨a, l, rfl⟩
      subst hras
      have e : mergeLists [] (y :: ys') = (Side.RHS, y) :: mergeLists [] ys' := by
        simp [mergeLists]
      have hly : low ≤ y := hyall y (by simp)
      obtain ⟨rest', heq, hlen', htax⟩ :=
        ihy [] rbs' ra0 rb1 y (by simp) hy.tail (by simp)
          (fun s hs => le_of_lt (chain'_cons_forall hy s hs)) rfl (by simpa using hrb)
      refine ⟨(ra0 + rb1) :: rest', ?_, ?_, ?_⟩
      · rw [e, List.map_cons]
        simp only [mergedRatesGo, heq, Option.map_some]
        rfl
      · rw [e]
        simp [hlen']
      · rw [e, List.map_cons]
        simp only [taxFrom, List.headD_cons, List.tail_cons]
        rw [htax]
        simp only [taxFrom, List.headD_cons, List.tail_cons]
        rw [three_point_top g low y hly]
        ring
  | cons x xs' ihx =>
    intro ys
    induction ys with
    | nil =>
      intro ras rbs ra0 rb0 low hx hy hxall hyall hra hrb
      have hrbs : rbs = [] := List.eq_nil_of_length_eq_zero hrb.symm
      obtain ⟨ra1, ras', rfl⟩ : ∃ ra1 ras', ras = ra1 :: ras' := by
        cases ras with
        | nil => simp at hra
        | cons a l => exact ⟨a, l, rfl⟩
      subst hrbs
      have e : mergeLists (x :: xs') [] = (Side.LHS, x) :: mergeLists xs' [] := by
        cases xs' <;> simp [mergeLists]
      have hlx : low ≤ x := hxall x (by simp)
      obtain ⟨rest', heq, hlen', htax⟩ :=
        ihx [] ras' [] ra1 rb0 x hx.tail (by simp)
          (fun s hs => le_of_lt (chain'_cons_forall hx s hs)) (by simp)
          (by simpa using hra) rfl
      refine ⟨(ra1 + rb0) :: rest', ?_, ?_, ?_⟩
      · rw [e, List.map_cons]
        simp only [mergedRatesGo, heq, Option.map_some]
        rfl
      · rw [e]
        simp [hlen']
      · rw [e, List.map_cons]
        simp only [taxFrom, List.headD_cons, List.tail_cons]
        rw [htax]
        simp only [taxFrom, List.headD_cons, List.tail_cons]
        rw [three_point_top g low x hlx]
        ring
    | cons y ys' ihy =>
      intro ras rbs ra0 rb0 low hx hy hxall hyall hra hrb
      obtain ⟨ra1, ras', rfl⟩ : ∃ ra1 ras', ras = ra1 :: ras' := by
        cases ras with
        | nil => simp at hra
        | cons a l => exact ⟨a, l, rfl⟩
      obtain ⟨rb1, rbs', rfl⟩ : ∃ rb1 rbs', rbs = rb1 :: rbs' := by
        cases rbs with
        | nil => simp at hrb
        | cons a l => exact ⟨a, l, rfl⟩
      have hlx : low ≤ x := hxall x (by simp)
      have hly : low ≤ y := hyall y (by simp)
      by_cases hxy : x = y
      · subst hxy
        have e : mergeLists (x :: xs') (x :: ys') = (Side.Both, x) :: mergeLists xs' ys' := by
          simp [mergeLists]
        obtain ⟨rest', heq, hlen', htax⟩ :=
          ihx ys' ras' rbs' ra1 rb1 x hx.tail hy.tail
            (fun s hs => le_of_lt (chain'_cons_forall hx s hs))
            (fun s hs => le_of_lt (chain'_cons_forall hy s hs))
            (by simpa using hra) (by simpa using hrb)
        refine ⟨(ra1 + rb1) :: rest', ?_, ?_, ?_⟩
        · rw [e, List.map_cons]
          simp only [mergedRatesGo, heq, Option.map_some]
          rfl
        · rw [e]
          simp [hlen']
        · rw [e, List.map_cons]
          simp only [taxFrom, List.headD_cons, List.tail_cons]
          rw [htax]
          ring
      · by_cases hlt : x < y
        · have e : mergeLists (x :: xs') (y :: ys') =
              (Side.LHS, x) :: mergeLists xs' (y :: ys') := by
            simp [mergeLists, if_neg hxy, if_pos hlt]
          have hyall' : ∀ s ∈ y :: ys', x ≤ s := by
            intro s hs
            rcases List.mem_cons.mp hs with rfl | hs2
            · exact le_of_lt hlt
            · exact le_of_lt (lt_trans hlt (chain'_cons_forall hy s hs2))
          obtain ⟨rest', heq, hlen', htax⟩ :=
            ihx (y :: ys') ras' (rb1 :: rbs') ra1 rb0 x hx.tail hy
              (fun s hs => le_of_lt (chain'_cons_forall hx s hs)) hyall'
              (by simpa using hra) hrb
          refine ⟨(ra1 + rb0) :: rest', ?_, ?_, ?_⟩
          · rw [e, List.map_cons]
            simp only [mergedRatesGo, heq, Option.map_some]
            rfl
          · rw [e]
            simp [hlen']
          · rw [e, List.map_cons]
            simp only [taxFrom, List.headD_cons, List.tail_cons]
            rw [htax]
            simp only [taxFrom, List.headD_cons, List.tail_cons]
            have h1 := taxFrom_split x (y :: ys') (rb0 :: rb1 :: rbs') low g hlx hyall'
            simp only [taxFrom, List.headD_cons, List.tail_cons] at h1
            linarith [h1]
        · have hylt : y < x := by
            rcases lt_trichotomy x y with h | h | h
            · exact absurd h hlt
            · exact absurd h hxy
            · exact h
          have e : mergeLists (x :: xs') (y :: ys') =
              (Side.RHS, y) :: mergeLists (x :: xs') ys' := by
            simp [mergeLists, if_neg hxy, if_neg hlt]
          have hxall' : ∀ s ∈ x :: xs', y ≤ s := by
            intro s hs
            rcases List.mem_cons.mp hs with rfl | hs2
            · exact le_of_lt hylt
            · exact le_of_lt (lt_trans hylt (chain'_cons_forall hx s hs2))
          obtain ⟨rest', heq, hlen', htax⟩ :=
            ihy (ra1 :: ras') rbs' ra0 rb1 y hx hy.tail hxall'
              (fun s hs => le_of_lt (chain'_cons_forall hy s hs))
              hra (by simpa using hrb)
          refine ⟨(ra0 + rb1) :: rest', ?_, ?_, ?_⟩
          · rw [e, List.map_cons]
            simp only [mergedRatesGo, heq, Option.map_some]
            rfl
          · rw [e]
            simp [hlen']
          · rw [e, List.map_cons]
            simp only [taxFrom, List.headD_cons, List.tail_cons]
            rw [htax]
            simp only [taxFrom, List.headD_cons, List.tail_cons]
            have h1 := taxFrom_split y (x :: xs') (ra0 :: ra1 :: ras') low g hly hxall'
            simp only [taxFrom, List.headD_cons, List.tail_cons] at h1
            linarith [h1]

/-- C2: for any two valid schedules, the merged schedule's taxes at every
nonnegative income equal the sum of the two schedules' taxes, with exact
rational equality. -/
theorem C2_merge_additive (sa ra sb rb : List ℚ) (a b : TaxBrackets)
    (hva : ValidInput sa ra) (hvb : ValidInput sb rb)
    (hna : TaxBrackets.new sa ra = some a) (hnb : TaxBrackets.new sb rb = some b)
    (g : ℚ) (hg : 0 ≤ g) :
    ∃ m ta tb, TaxBrackets.merge a b = some m ∧
      a.calc_taxes g = some ta ∧ b.calc_taxes g = some tb ∧
      m.calc_taxes g = some (ta + tb) := by
  obtain ⟨hca, hnna, hlena, _⟩ := hva
  obtain ⟨hcb, hnnb, hlenb, _⟩ := hvb
  obtain ⟨hsa, _, hraf, _⟩ := new_some hna
  obtain ⟨hsb, _, hrbf, _⟩ := new_some hnb
  obtain ⟨ra0, ras, rfl⟩ : ∃ r0 rs, ra = r0 :: rs := by
    cases ra with
    | nil => simp at hlena
    | cons c l => exact ⟨c, l, rfl⟩
  obtain ⟨rb0, rbs, rfl⟩ : ∃ r0 rs, rb = r0 :: rs := by
    cases rb with
    | nil => simp at hlenb
    | cons c l => exact ⟨c, l, rfl⟩
  obtain ⟨rest, heqgo, hlenr, htaxeq⟩ :=
    merge_taxFrom g sa sb ras rbs ra0 rb0 0 hca hcb hnna hnnb
      (by simpa using hlena) (by simpa using hlenb)
  have hmerge : TaxBrackets.merge a b =
      TaxBrackets.new ((mergeLists sa sb).map Prod.snd) ((ra0 + rb0) :: rest) := by
    unfold TaxBrackets.merge
    rw [hsa, hsb, hraf, hrbf]
    simp only [heqgo]
  have hlen_m : ((mergeLists sa sb).map Prod.snd).length + 1 =
      ((ra0 + rb0) :: rest).length := by
    simp [hlenr]
  obtain ⟨m, hmnew⟩ := Option.isSome_iff_exists.mp ((new_isSome_iff _ _).mpr hlen_m)
  have hmchain := mergeLists_sorted sa sb hca hcb
  refine ⟨m, _, _, by rw [hmerge]; exact hmnew,
    calc_taxes_taxFrom hna hca g hg, calc_taxes_taxFrom hnb hcb g hg, ?_⟩
  rw [calc_taxes_taxFrom hmnew hmchain g hg, htaxeq]

theorem newB : TaxBrackets.new [5000] [1/20, 3/20] =
    some { separators := [5000], flats := [0, 250], rates := [1/20, 3/20] } := by
  norm_num [TaxBrackets.new, flatVal, List.range_succ]

theorem validB : ValidInput [5000] [1/20, 3/20] := by
  refine ⟨by simp, ?_, by simp, ?_⟩
  · intro x hx
    simp at hx
    subst hx
    norm_num
  · intro x hx
    rcases List.mem_cons.mp hx with rfl | hx2
    · norm_num
    · simp at hx2
      subst hx2
      norm_num

theorem C2_merge_additive_witness :
    ∃ m ta tb, TaxBrackets.merge
        { separators := [10000], flats := [0, 1000], rates := [1/10, 2/10] }
        { separators := [5000], flats := [0, 250], rates := [1/20, 3/20] } = some m ∧
      TaxBrackets.calc_taxes
        { separators := [10000], flats := [0, 1000], rates := [1/10, 2/10] } 12000 = some ta ∧
      TaxBrackets.calc_taxes
        { separators := [5000], flats := [0, 250], rates := [1/20, 3/20] } 12000 = some tb ∧
      TaxBrackets.calc_taxes m 12000 = some (ta + tb) :=
  C2_merge_additive [10000] [1/10, 2/10] [5000] [1/20, 3/20] _ _
    validA validB newA newB 12000 (by norm_num)

/-- C5: merging schedule A (separators `[10000]`, rates `[0.10, 0.20]`) with
schedule B (separators `[5000]`, rates `[0.05, 0.15]`) yields separators
`[5000, 10000]` and rates `[0.15, 0.25, 0.35]`, and the merged taxes at 12000
equal the sum of A's and B's taxes at 12000. -/
theorem C5_concrete_merge :
    TaxBrackets.merge { separators := [10000], flats := [0, 1000], rates := [1/10, 2/10] }
        { separators := [5000], flats := [0, 250], rates := [1/20, 3/20] } =
      some { separators := [5000, 10000], flats := [0, 750, 2000],
             rates := [3/20, 1/4, 7/20] } ∧
    TaxBrackets.new [10000] [1/10, 2/10] =
      some { separators := [10000], flats := [0, 1000], rates := [1/10, 2/10] } ∧
    TaxBrackets.new [5000] [1/20, 3/20] =
      some { separators := [5000], flats := [0, 250], rates := [1/20, 3/20] } ∧
    TaxBrackets.calc_taxes
      { separators := [5000, 10000], flats := [0, 750, 2000], rates := [3/20, 1/4, 7/20] }
      12000 = some 2700 ∧
    TaxBrackets.calc_taxes
      { separators := [10000], flats := [0, 1000], rates := [1/10, 2/10] } 12000 =
        some 1400 ∧
    TaxBrackets.calc_taxes
      { separators := [5000], flats := [0, 250], rates := [1/20, 3/20] } 12000 =
        some 1300 ∧
    (2700 : ℚ) = 1400 + 1300 := by
  refine ⟨?_, newA, newB, ?_, ?_, ?_, by norm_num⟩
  · norm_num [TaxBrackets.merge, mergeLists, mergedRatesGo, TaxBrackets.new, flatVal,
      List.range_succ]
  · norm_num [TaxBrackets.calc_taxes, TaxBrackets.taxation_info, multibound_to_bounds,
      multibound_to_opts, optToBound, taxesLoop, boundContains]
  · norm_num [TaxBrackets.calc_taxes, TaxBrackets.taxation_info, multibound_to_bounds,
      multibound_to_opts, optToBound, taxesLoop, boundContains]
  · norm_num [TaxBrackets.calc_taxes, TaxBrackets.taxation_info, multibound_to_bounds,
      multibound_to_opts, optToBound, taxesLoop, boundContains]
